import Mathlib

/-!
Verification of the `matrix_fact` repository (file `src/matrix_fact/abnmf.py`),
the augmented binary non-negative matrix factorization engine `ABNMF`.

The engine state is embedded shallowly: dense numpy arrays become
`Matrix (Fin m) (Fin n) ℚ` (exact rational arithmetic standing for the
real-valued semantics of the floating-point program; the literal constants
`1.1`, `1e-9` and `1/niter` are the exact rationals `11/10`, `1/10^9`,
`1/niter`).  The two update methods `_update_h` and `_update_w` and the
constructor checks are translated directly from the source.  The base class
`MatrixFactBase` (outer iteration loop and error bookkeeping) is not part of
the repository sources; where a claim depends on it, the loop is modelled
from the spec (see `ABNMF.iterStep`, `ABNMF.frobSq`, `ABNMF.run`).
-/

open Matrix

/-- Growth factor `_LAMB_INCREASE_W = 1.1` from the source. -/
def lambIncreaseW : ℚ := 11/10

/-- Growth factor `_LAMB_INCREASE_H = 1.1` from the source. -/
def lambIncreaseH : ℚ := 11/10

/-- The additive floor `10**-9` used in both update denominators. -/
def eps : ℚ := 1/10^9

/-- State of an `ABNMF` engine instance: the immutable data matrix of shape
`(D, N)`, the W-augment block of shape `(D, A)`, the stored (and never used)
`h_augments` argument, the factor matrices `W : (D, K)` and `H : (K, N)`,
and the two regularization scalars `_lamb_W`, `_lamb_H`. -/
structure ABNMF (D N K A : ℕ) where
  data : Matrix (Fin D) (Fin N) ℚ
  w_augments : Matrix (Fin D) (Fin A) ℚ
  h_augments : Option (List (List ℚ))
  W : Matrix (Fin D) (Fin K) ℚ
  H : Matrix (Fin K) (Fin N) ℚ
  lamb_W : ℚ
  lamb_H : ℚ

variable {D N K A : ℕ}

/-- Translation of `ABNMF._update_h` (source lines 101–109):
`H1 = W.T·data + 3.0·λH·H**2`, `H2 = (W.T·W)·H + 2·λH·H**3 + λH·H + 10**-9`,
`H *= H1/H2`, then both lambdas are multiplied by their growth factors.
Elementwise numpy broadcasting is written entrywise; `np.dot` is matrix
multiplication. -/
def ABNMF.update_h (s : ABNMF D N K A) : ABNMF D N K A :=
  let H1 : Matrix (Fin K) (Fin N) ℚ :=
    Matrix.of fun i j => (s.Wᵀ * s.data) i j + 3 * s.lamb_H * (s.H i j)^2
  let H2 : Matrix (Fin K) (Fin N) ℚ :=
    Matrix.of fun i j =>
      ((s.Wᵀ * s.W) * s.H) i j + 2 * s.lamb_H * (s.H i j)^3
        + s.lamb_H * s.H i j + eps
  { s with
    H := Matrix.of fun i j => s.H i j * (H1 i j / H2 i j)
    lamb_W := lambIncreaseW * s.lamb_W
    lamb_H := lambIncreaseH * s.lamb_H }

/-- Translation of `ABNMF._update_w` (source lines 114–120):
`W1 = data·H.T + 3.0·λW·W**2`, `W2 = W·(H·H.T) + 2.0·λW·W**3 + λW·W + 10**-9`,
`W *= W1/W2`, then `W[w_augments_idx] = w_augments` where `w_augments_idx`
selects all `D` rows and the columns `K - A, …, K - 1`
(source lines 90–93). -/
def ABNMF.update_w (s : ABNMF D N K A) : ABNMF D N K A :=
  let W1 : Matrix (Fin D) (Fin K) ℚ :=
    Matrix.of fun i j => (s.data * s.Hᵀ) i j + 3 * s.lamb_W * (s.W i j)^2
  let W2 : Matrix (Fin D) (Fin K) ℚ :=
    Matrix.of fun i j =>
      (s.W * (s.H * s.Hᵀ)) i j + 2 * s.lamb_W * (s.W i j)^3
        + s.lamb_W * s.W i j + eps
  { s with
    W := Matrix.of fun i (j : Fin K) =>
      if h : K - A ≤ j.val then
        s.w_augments i ⟨j.val - (K - A), by have := j.isLt; omega⟩
      else
        s.W i j * (W1 i j / W2 i j) }

/-- Translation of `ABNMF.__init__` (source lines 74–99): the constructor
stores `data`, `w_augments` and `h_augments` and asserts
`w_augments.shape[0] == data.shape[0]` and `w_augments.shape[1] <= num_bases`;
a failed `assert` raises, modelled as `none`.  No other validation is
performed: `h_augments` is an arbitrary optional ragged list (its shape
check is commented out in the source).  `W` and `H` are seeded externally
by the base collaborator and are passed in here; the lambdas are unset
until `factorize` runs (given the placeholder value 0). -/
def ABNMF.init (D N K r c : ℕ) (data : Matrix (Fin D) (Fin N) ℚ)
    (w_aug : Matrix (Fin r) (Fin c) ℚ) (h_aug : Option (List (List ℚ)))
    (W0 : Matrix (Fin D) (Fin K) ℚ) (H0 : Matrix (Fin K) (Fin N) ℚ) :
    Option (ABNMF D N K c) :=
  if h : r = D ∧ c ≤ K then
    some { data := data
           w_augments := Matrix.of fun i j => w_aug (Fin.cast h.1.symm i) j
           h_augments := h_aug
           W := W0
           H := H0
           lamb_W := 0
           lamb_H := 0 }
  else
    none

/-- Modelled from the spec: one iteration of the base-class driver loop
(`MatrixFactBase.factorize` is not among the repository sources).  Spec §4.2:
on each iteration the driver calls `updateW` if `compute_w`, then `updateH`
if `compute_h`. -/
def ABNMF.iterStep (cw ch : Bool) (s : ABNMF D N K A) : ABNMF D N K A :=
  let s1 := if cw then s.update_w else s
  if ch then s1.update_h else s1

/-- Modelled from the spec: the squared Frobenius reconstruction error
`‖data − W·H‖_F²` recorded by the driver after each iteration (the spec
records the norm itself; the square is used here so the value stays
rational, and the claims below depend only on how many entries are
recorded, which is unaffected). -/
def ABNMF.frobSq (s : ABNMF D N K A) : ℚ :=
  Finset.univ.sum fun i =>
    Finset.univ.sum fun j => (s.data i j - (s.W * s.H) i j)^2

/-- Modelled from the spec: the base-class driver loop body
(`MatrixFactBase.factorize` is not among the repository sources).  Spec §4.2:
loop exactly `niter` times; per iteration run the enabled update steps and,
if `compute_err`, record the reconstruction error computed from the matrices
after that iteration's updates, in iteration order. -/
def ABNMF.run (cw ch ce : Bool) : ℕ → ABNMF D N K A → ABNMF D N K A × List ℚ
  | 0, s => (s, [])
  | n + 1, s =>
    let s1 := ABNMF.iterStep cw ch s
    let p := ABNMF.run cw ch ce n s1
    (p.1, (if ce then [ABNMF.frobSq s1] else []) ++ p.2)

/-- The learning-parameter initialization at the top of `ABNMF.factorize`
(source lines 152–154): `_lamb_W = _lamb_H = 1.0/niter`. -/
def ABNMF.initLamb (s : ABNMF D N K A) (niter : ℕ) : ABNMF D N K A :=
  { s with lamb_W := 1/(niter : ℚ), lamb_H := 1/(niter : ℚ) }

/-- Translation of `ABNMF.factorize` (source lines 123–158): set
`_lamb_W = _lamb_H = 1.0/niter` — which raises `ZeroDivisionError` when
`niter = 0`, modelled as `Except.error ()` — then hand over to the
base-class loop (modelled from the spec, see `ABNMF.run`).  The result is
the final state together with the recorded error sequence. -/
def ABNMF.factorize (s : ABNMF D N K A) (niter : ℕ) (cw ch ce : Bool) :
    Except Unit (ABNMF D N K A × List ℚ) :=
  if niter = 0 then
    Except.error ()
  else
    Except.ok (ABNMF.run cw ch ce niter (s.initLamb niter))

/-- Concrete `1 × 1` all-ones engine state used by the witnesses. -/
def oneState : ABNMF 1 1 1 1 :=
  { data := Matrix.of ![![1]]
    w_augments := Matrix.of ![![1]]
    h_augments := none
    W := Matrix.of ![![1]]
    H := Matrix.of ![![1]]
    lamb_W := 1
    lamb_H := 1 }

/-- The `2 × 3` data matrix of the spec's concrete scenario. -/
def scenarioData : Matrix (Fin 2) (Fin 3) ℚ := Matrix.of ![![1, 0, 1], ![0, 1, 1]]

/-- The `2 × 1` W-augment block `[[0], [1]]` of the spec's concrete
scenario, pinning the last column of `W` to `(0, 1)ᵀ`. -/
def scenarioWAug : Matrix (Fin 2) (Fin 1) ℚ := Matrix.of ![![0], ![1]]

/-- Concrete engine state for the spec's scenario: `K = 2`, `A = 1`,
all-ones seeds for `W` and `H`. -/
def scenarioState : ABNMF 2 3 2 1 :=
  { data := scenarioData
    w_augments := scenarioWAug
    h_augments := none
    W := Matrix.of ![![1, 1], ![1, 1]]
    H := Matrix.of ![![1, 1, 1], ![1, 1, 1]]
    lamb_W := 1
    lamb_H := 1 }

/-- C1: a single call to the H-update replaces `H` elementwise by
`H ⊙ Numerator/Denominator` with `Numerator = Wᵀ·data + 3·λH·H²` and
`Denominator = Wᵀ·W·H + 2·λH·H³ + λH·H + 1e-9`, the matrix products spelled
out as the underlying dot-product sums. -/
theorem c1_update_h_formula (s : ABNMF D N K A) (i : Fin K) (j : Fin N) :
    (s.update_h).H i j =
      s.H i j *
        (((Finset.univ.sum fun k => s.W k i * s.data k j)
            + 3 * s.lamb_H * (s.H i j)^2) /
         ((Finset.univ.sum fun k =>
             (Finset.univ.sum fun l => s.W l i * s.W l k) * s.H k j)
            + 2 * s.lamb_H * (s.H i j)^3 + s.lamb_H * s.H i j + 1/10^9)) := by
  simp [ABNMF.update_h, Matrix.mul_apply, Matrix.transpose_apply, eps]

/-- C2: a single call to the W-update is the elementwise multiplicative
update `W ⊙ Numerator/Denominator` with `Numerator = data·Hᵀ + 3·λW·W²`
and `Denominator = W·H·Hᵀ + 2·λW·W³ + λW·W + 1e-9`, except that every
entry in columns `K - A, …, K - 1` is overwritten with the corresponding
`w_augments` entry, discarding the multiplicative value there. -/
theorem c2_update_w_formula (s : ABNMF D N K A) (i : Fin D) (j : Fin K) :
    (s.update_w).W i j =
      if h : K - A ≤ j.val then
        s.w_augments i ⟨j.val - (K - A), by have := j.isLt; omega⟩
      else
        s.W i j *
          (((Finset.univ.sum fun k => s.data i k * s.H j k)
              + 3 * s.lamb_W * (s.W i j)^2) /
           ((Finset.univ.sum fun k =>
               s.W i k * Finset.univ.sum fun l => s.H k l * s.H j l)
              + 2 * s.lamb_W * (s.W i j)^3 + s.lamb_W * s.W i j + 1/10^9)) := by
  by_cases h : K - A ≤ j.val
  · have h2 : K ≤ j.val + A := by omega
    simp [ABNMF.update_w, h, h2]
  · have h2 : ¬K ≤ j.val + A := by omega
    simp [ABNMF.update_w, h, h2, Matrix.mul_apply, Matrix.transpose_apply, eps]

/-- C6: construction succeeds exactly when the `w_augments` row count
equals `D` and its column count is at most `K`; the entries of every
input and the (optional, arbitrarily shaped) `h_augments` are not
inspected at all. -/
theorem c6_init_validation (Dv Nv Kv r c : ℕ)
    (data : Matrix (Fin Dv) (Fin Nv) ℚ) (w_aug : Matrix (Fin r) (Fin c) ℚ)
    (h_aug : Option (List (List ℚ))) (W0 : Matrix (Fin Dv) (Fin Kv) ℚ)
    (H0 : Matrix (Fin Kv) (Fin Nv) ℚ) :
    (ABNMF.init Dv Nv Kv r c data w_aug h_aug W0 H0).isSome
      ↔ (r = Dv ∧ c ≤ Kv) := by
  unfold ABNMF.init
  split <;> simp_all

/-- The H-update leaves `W`, `w_augments` and `data` untouched. -/
theorem update_h_frame (s : ABNMF D N K A) :
    (s.update_h).W = s.W ∧ (s.update_h).w_augments = s.w_augments ∧
    (s.update_h).data = s.data ∧ (s.update_h).h_augments = s.h_augments :=
  ⟨rfl, rfl, rfl, rfl⟩

/-- The W-update leaves `H`, both lambdas, `w_augments` and `data`
untouched. -/
theorem update_w_frame (s : ABNMF D N K A) :
    (s.update_w).H = s.H ∧ (s.update_w).lamb_W = s.lamb_W ∧
    (s.update_w).lamb_H = s.lamb_H ∧
    (s.update_w).w_augments = s.w_augments ∧ (s.update_w).data = s.data ∧
    (s.update_w).h_augments = s.h_augments :=
  ⟨rfl, rfl, rfl, rfl, rfl, rfl⟩

/-- One driver iteration leaves `data` untouched. -/
theorem iterStep_data (cw ch : Bool) (s : ABNMF D N K A) :
    (ABNMF.iterStep cw ch s).data = s.data := by
  cases cw <;> cases ch <;> rfl

/-- One driver iteration leaves `w_augments` untouched. -/
theorem iterStep_w_augments (cw ch : Bool) (s : ABNMF D N K A) :
    (ABNMF.iterStep cw ch s).w_augments = s.w_augments := by
  cases cw <;> cases ch <;> rfl

/-- Iterated driver iterations leave `w_augments` untouched. -/
theorem iterate_w_augments (cw ch : Bool) (n : ℕ) (s : ABNMF D N K A) :
    ((ABNMF.iterStep cw ch)^[n] s).w_augments = s.w_augments := by
  induction n generalizing s with
  | zero => rfl
  | succ m ih => rw [Function.iterate_succ_apply, ih, iterStep_w_augments]

/-- The driver loop leaves `data` untouched. -/
theorem run_data (cw ch ce : Bool) (n : ℕ) (s : ABNMF D N K A) :
    ((ABNMF.run cw ch ce n s).1).data = s.data := by
  induction n generalizing s with
  | zero => rfl
  | succ m ih =>
    show ((ABNMF.run cw ch ce m (ABNMF.iterStep cw ch s)).1).data = s.data
    rw [ih, iterStep_data]

/-- C9: the data matrix is never mutated — neither update step changes any
entry of `data`, and `factorize` returns a state whose `data` is the input
`data` (when it does not raise). -/
theorem c9_data_immutable (s : ABNMF D N K A) (niter : ℕ) (cw ch ce : Bool) :
    (s.update_h).data = s.data ∧ (s.update_w).data = s.data ∧
    (ABNMF.factorize s niter cw ch ce).map (fun p => p.1.data)
      = (ABNMF.factorize s niter cw ch ce).map (fun _ => s.data) := by
  refine ⟨rfl, rfl, ?_⟩
  cases niter with
  | zero => rfl
  | succ n => simp [ABNMF.factorize, Except.map, run_data, ABNMF.initLamb]

/-- C10: each update step touches only its own factor matrix — the H-update
leaves `W` (and `w_augments`) unchanged, and the W-update leaves `H`,
`lamb_W`, `lamb_H` (and `w_augments`) unchanged.  The shape preservation
part of the claim is carried by the types: both updates map
`ABNMF D N K A` to `ABNMF D N K A`, so `W` stays `(D, K)` and `H` stays
`(K, N)`. -/
theorem c10_update_frame (s : ABNMF D N K A) :
    (s.update_h).W = s.W ∧ (s.update_h).w_augments = s.w_augments ∧
    (s.update_w).H = s.H ∧ (s.update_w).lamb_W = s.lamb_W ∧
    (s.update_w).lamb_H = s.lamb_H ∧
    (s.update_w).w_augments = s.w_augments :=
  ⟨rfl, rfl, rfl, rfl, rfl, rfl⟩

/-- One driver iteration with the H-step enabled multiplies both lambdas
by `1.1` (the W-step never changes them). -/
theorem iterStep_lamb_W (cw : Bool) (s : ABNMF D N K A) :
    (ABNMF.iterStep cw true s).lamb_W = (11/10) * s.lamb_W := by
  cases cw <;> rfl

/-- One driver iteration with the H-step enabled multiplies both lambdas
by `1.1` (H-side scalar). -/
theorem iterStep_lamb_H (cw : Bool) (s : ABNMF D N K A) :
    (ABNMF.iterStep cw true s).lamb_H = (11/10) * s.lamb_H := by
  cases cw <;> rfl

/-- After `i` driver iterations with the H-step enabled, each lambda has
been multiplied by `1.1` exactly `i` times. -/
theorem iterate_lamb (cw : Bool) (i : ℕ) (s : ABNMF D N K A) :
    ((ABNMF.iterStep cw true)^[i] s).lamb_W = (11/10)^i * s.lamb_W ∧
    ((ABNMF.iterStep cw true)^[i] s).lamb_H = (11/10)^i * s.lamb_H := by
  induction i with
  | zero => exact ⟨by simp, by simp⟩
  | succ m ih =>
    rw [Function.iterate_succ_apply', iterStep_lamb_W, iterStep_lamb_H,
      ih.1, ih.2]
    constructor <;> ring

/-- C3: within one `factorize` call with `niter ≥ 1`, both lambdas start at
`1/niter`; an H-update multiplies both by exactly `1.1` while a W-update
changes neither; hence after `i` completed H-updates both lambdas equal
`(1/niter)·1.1^i`, and they strictly increase from each iteration to the
next. -/
theorem c3_lambda_schedule (s t : ABNMF D N K A) (niter i : ℕ)
    (hn : 1 ≤ niter) (cw ce : Bool) :
    (t.update_h).lamb_W = (11/10) * t.lamb_W ∧
    (t.update_h).lamb_H = (11/10) * t.lamb_H ∧
    (t.update_w).lamb_W = t.lamb_W ∧
    (t.update_w).lamb_H = t.lamb_H ∧
    (s.initLamb niter).lamb_W = 1/(niter : ℚ) ∧
    (s.initLamb niter).lamb_H = 1/(niter : ℚ) ∧
    ABNMF.factorize s niter cw true ce
      = Except.ok (ABNMF.run cw true ce niter (s.initLamb niter)) ∧
    ((ABNMF.iterStep cw true)^[i] (s.initLamb niter)).lamb_W
      = (1/(niter : ℚ)) * (11/10)^i ∧
    ((ABNMF.iterStep cw true)^[i] (s.initLamb niter)).lamb_H
      = (1/(niter : ℚ)) * (11/10)^i ∧
    ((ABNMF.iterStep cw true)^[i] (s.initLamb niter)).lamb_W
      < ((ABNMF.iterStep cw true)^[i + 1] (s.initLamb niter)).lamb_W ∧
    ((ABNMF.iterStep cw true)^[i] (s.initLamb niter)).lamb_H
      < ((ABNMF.iterStep cw true)^[i + 1] (s.initLamb niter)).lamb_H := by
  have hpos : (0 : ℚ) < 1/(niter : ℚ) := by
    have : (0 : ℚ) < (niter : ℚ) := by exact_mod_cast hn
    positivity
  have hiter := iterate_lamb cw i (s.initLamb niter)
  have hiter1 := iterate_lamb cw (i + 1) (s.initLamb niter)
  have hW0 : (s.initLamb niter).lamb_W = 1/(niter : ℚ) := rfl
  have hH0 : (s.initLamb niter).lamb_H = 1/(niter : ℚ) := rfl
  have hlt : (11/10 : ℚ)^i * (1/(niter : ℚ)) < (11/10)^(i + 1) * (1/(niter : ℚ)) := by
    have hp : (0 : ℚ) < (11/10)^i := by positivity
    have : (11/10 : ℚ)^i < (11/10)^(i + 1) := by
      rw [pow_succ]; nlinarith
    exact mul_lt_mul_of_pos_right this hpos
  have hfac : ABNMF.factorize s niter cw true ce
      = Except.ok (ABNMF.run cw true ce niter (s.initLamb niter)) := by
    have : niter ≠ 0 := by omega
    simp [ABNMF.factorize, this]
  refine ⟨rfl, rfl, rfl, rfl, rfl, rfl, hfac, ?_, ?_, ?_, ?_⟩
  · rw [hiter.1, hW0]; ring
  · rw [hiter.2, hH0]; ring
  · rw [hiter.1, hiter1.1, hW0]; exact hlt
  · rw [hiter.2, hiter1.2, hH0]; exact hlt

/-- Witness for C3 at a concrete input: `niter = 1`, two completed
H-updates give `lamb_H = (1/1)·1.1² = 121/100`. -/
theorem c3_lambda_schedule_witness :
    1 ≤ 1 ∧
    ((ABNMF.iterStep false true)^[2] (oneState.initLamb 1)).lamb_H
      = (1/((1 : ℕ) : ℚ)) * (11/10)^2 :=
  ⟨by decide,
    (c3_lambda_schedule oneState oneState 1 2 (by decide) false true).2.2.2.2.2.2.2.2.1⟩

/-- Entries of the constrained column block after a W-update equal the
corresponding `w_augments` entries. -/
theorem update_w_block (s : ABNMF D N K A) (i : Fin D) (j : Fin K)
    (h : K - A ≤ j.val) :
    (s.update_w).W i j
      = s.w_augments i ⟨j.val - (K - A), by have := j.isLt; omega⟩ := by
  have h2 : K ≤ j.val + A := by omega
  simp [ABNMF.update_w, h, h2]

/-- In the spec's concrete scenario, one driver iteration pins the last
column of `W` to `(0, 1)ᵀ`. -/
theorem scenario_step_col (c : ABNMF 2 3 2 1)
    (hc : c.w_augments = scenarioWAug) :
    (ABNMF.iterStep true true c).W 0 1 = 0 ∧
    (ABNMF.iterStep true true c).W 1 1 = 1 := by
  have hW : (ABNMF.iterStep true true c).W = (c.update_w).W := rfl
  have h0 := update_w_block c 0 1 (by decide)
  have h1 := update_w_block c 1 1 (by decide)
  rw [hW, h0, h1, hc]
  constructor <;> rfl

/-- In the spec's concrete scenario, after any positive number of driver
iterations the last column of `W` is exactly `(0, 1)ᵀ`. -/
theorem scenario_iterate_col (c : ABNMF 2 3 2 1)
    (hc : c.w_augments = scenarioWAug) (n : ℕ) :
    ((ABNMF.iterStep true true)^[n + 1] c).W 0 1 = 0 ∧
    ((ABNMF.iterStep true true)^[n + 1] c).W 1 1 = 1 := by
  rw [Function.iterate_succ_apply']
  exact scenario_step_col _ (by rw [iterate_w_augments, hc])

/-- C4: after every W-update the sub-block of `W` at columns
`[K - A, K)` equals `w_augments` entry for entry; in the spec's concrete
scenario (`A = 1`, `w_augments = [[0], [1]]`), after any positive number
of driver iterations column `K - 1` of `W` equals exactly `(0, 1)ᵀ`.  The
constrained column range is determined once by `K` and `A` alone and no
operation of the engine changes `K`, `A` or `w_augments`. -/
theorem c4_augment_block (s : ABNMF D N K A) (i : Fin D) (j : Fin K)
    (h : K - A ≤ j.val) (c : ABNMF 2 3 2 1)
    (hc : c.w_augments = scenarioWAug) (n : ℕ) :
    (s.update_w).W i j
        = s.w_augments i ⟨j.val - (K - A), by have := j.isLt; omega⟩ ∧
    ((ABNMF.iterStep true true)^[n + 1] c).W 0 1 = 0 ∧
    ((ABNMF.iterStep true true)^[n + 1] c).W 1 1 = 1 :=
  ⟨update_w_block s i j h, (scenario_iterate_col c hc n).1,
    (scenario_iterate_col c hc n).2⟩

/-- Witness for C4 at a concrete input: the scenario state after one
iteration has `W[1][1] = 1`, and the one-by-one state's single (augmented)
column is overwritten by its augment value. -/
theorem c4_augment_block_witness :
    (1 - 1 ≤ (0 : Fin 1).val ∧ scenarioState.w_augments = scenarioWAug) ∧
    (oneState.update_w).W 0 0 = oneState.w_augments 0 ⟨0, by decide⟩ ∧
    ((ABNMF.iterStep true true)^[0 + 1] scenarioState).W 1 1 = 1 :=
  ⟨⟨by decide, rfl⟩,
    (c4_augment_block oneState 0 0 (by decide) scenarioState rfl 0).1,
    (c4_augment_block oneState 0 0 (by decide) scenarioState rfl 0).2.2⟩

/-- C5: if all entries of `data`, `W` and `H` are non-negative and
`lamb_H` is positive, every entry of the updated `H` is non-negative:
the numerator is a sum of products of non-negative quantities, the
denominator is non-negative as well (bounded below by the `1e-9` floor),
and the update multiplies a non-negative entry by their ratio. -/
theorem c5_update_h_nonneg (s : ABNMF D N K A)
    (hd : ∀ i j, 0 ≤ s.data i j) (hw : ∀ i j, 0 ≤ s.W i j)
    (hh : ∀ i j, 0 ≤ s.H i j) (hl : 0 < s.lamb_H) (i : Fin K) (j : Fin N) :
    0 ≤ (s.update_h).H i j := by
  have e : (s.update_h).H i j
      = s.H i j *
        (((s.Wᵀ * s.data) i j + 3 * s.lamb_H * (s.H i j)^2) /
         (((s.Wᵀ * s.W) * s.H) i j + 2 * s.lamb_H * (s.H i j)^3
            + s.lamb_H * s.H i j + eps)) := rfl
  have hnum : 0 ≤ (s.Wᵀ * s.data) i j + 3 * s.lamb_H * (s.H i j)^2 := by
    apply add_nonneg
    · rw [Matrix.mul_apply]
      exact Finset.sum_nonneg fun k _ =>
        mul_nonneg (by simpa using hw k i) (hd k j)
    · have := hl.le
      positivity
  have hden : 0 ≤ ((s.Wᵀ * s.W) * s.H) i j + 2 * s.lamb_H * (s.H i j)^3
      + s.lamb_H * s.H i j + eps := by
    have h1 : 0 ≤ ((s.Wᵀ * s.W) * s.H) i j := by
      rw [Matrix.mul_apply]
      refine Finset.sum_nonneg fun k _ => mul_nonneg ?_ (hh k j)
      rw [Matrix.mul_apply]
      exact Finset.sum_nonneg fun l _ =>
        mul_nonneg (by simpa using hw l i) (by simpa using hw l k)
    have h2 : 0 ≤ 2 * s.lamb_H * (s.H i j)^3 :=
      mul_nonneg (by nlinarith [hl.le]) (pow_nonneg (hh i j) 3)
    have h3 : 0 ≤ s.lamb_H * s.H i j := mul_nonneg hl.le (hh i j)
    have h4 : 0 ≤ eps := by norm_num [eps]
    nlinarith
  rw [e]
  exact mul_nonneg (hh i j) (div_nonneg hnum hden)

/-- Witness for C5 at a concrete input: the all-ones `1 × 1` state has
non-negative data, `W` and `H` and positive `lamb_H`, and the updated
`H[0][0]` is non-negative. -/
theorem c5_update_h_nonneg_witness :
    ((∀ i j, 0 ≤ oneState.data i j) ∧ (∀ i j, 0 ≤ oneState.W i j) ∧
     (∀ i j, 0 ≤ oneState.H i j) ∧ 0 < oneState.lamb_H) ∧
    0 ≤ (oneState.update_h).H 0 0 :=
  ⟨⟨by decide, by decide, by decide, by decide⟩,
    c5_update_h_nonneg oneState (by decide) (by decide) (by decide)
      (by decide) 0 0⟩

/-- With both update flags off, the driver loop leaves the state unchanged
and records one (identical) error value per iteration when `compute_err`
is set. -/
theorem run_no_updates (ce : Bool) (n : ℕ) (s : ABNMF D N K A) :
    ABNMF.run false false ce n s
      = (s, if ce then List.replicate n (ABNMF.frobSq s) else []) := by
  induction n with
  | zero => cases ce <;> rfl
  | succ m ih =>
    show (((ABNMF.run false false ce m s)).1,
        (if ce then [ABNMF.frobSq s] else []) ++ (ABNMF.run false false ce m s).2)
      = _
    rw [ih]
    cases ce <;> simp [List.replicate_succ]

/-- C7 (amended): `factorize` with `niter = 0` raises (the Python
`1.0/niter` divides by zero) before touching `W`, `H` or the error
sequence; with both update flags false and `niter ≥ 1` it leaves `W` and
`H` unchanged, but the error sequence it records is empty only when
`compute_err` is false — with `compute_err` set it has exactly one entry
per iteration. -/
theorem c7_factorize_noop (s : ABNMF D N K A) (n : ℕ) (cw ch ce : Bool) :
    ABNMF.factorize s 0 cw ch ce = Except.error () ∧
    (ABNMF.factorize s (n + 1) false false ce).map
        (fun p => (p.1.W, p.1.H, p.2.length))
      = Except.ok (s.W, s.H, if ce then n + 1 else 0) := by
  refine ⟨rfl, ?_⟩
  simp [ABNMF.factorize, Except.map, run_no_updates]
  constructor
  · rfl
  · constructor
    · rfl
    · cases ce <;> simp

/-- Counterexample to C7 as stated: for the concrete `1 × 1` state, calling
`factorize` with `niter = 1`, both update flags false and the default
`compute_err = true` succeeds and produces an error sequence of length `1`
— neither empty nor absent. -/
theorem c7_counterexample :
    (ABNMF.factorize oneState 1 false false true).map (fun p => p.2.length)
      = Except.ok 1 ∧ (1 : ℕ) ≠ 0 :=
  ⟨rfl, by decide⟩

/-- Replacing the stored `h_augments` commutes with the H-update: the value
is never read. -/
theorem update_h_set_ha (s : ABNMF D N K A) (ha : Option (List (List ℚ))) :
    ABNMF.update_h { s with h_augments := ha }
      = { s.update_h with h_augments := ha } := rfl

/-- Replacing the stored `h_augments` commutes with the W-update: the value
is never read. -/
theorem update_w_set_ha (s : ABNMF D N K A) (ha : Option (List (List ℚ))) :
    ABNMF.update_w { s with h_augments := ha }
      = { s.update_w with h_augments := ha } := rfl

/-- Replacing the stored `h_augments` commutes with one driver iteration. -/
theorem iterStep_set_ha (cw ch : Bool) (s : ABNMF D N K A)
    (ha : Option (List (List ℚ))) :
    ABNMF.iterStep cw ch { s with h_augments := ha }
      = { ABNMF.iterStep cw ch s with h_augments := ha } := by
  cases cw <;> cases ch <;> rfl

/-- Replacing the stored `h_augments` commutes with the lambda
initialization. -/
theorem initLamb_set_ha (s : ABNMF D N K A) (n : ℕ)
    (ha : Option (List (List ℚ))) :
    ABNMF.initLamb { s with h_augments := ha } n
      = { s.initLamb n with h_augments := ha } := rfl

/-- Replacing the stored `h_augments` commutes with the driver loop and
leaves the recorded error sequence unchanged. -/
theorem run_set_ha (cw ch ce : Bool) (n : ℕ) (s : ABNMF D N K A)
    (ha : Option (List (List ℚ))) :
    ABNMF.run cw ch ce n { s with h_augments := ha }
      = ({ (ABNMF.run cw ch ce n s).1 with h_augments := ha },
         (ABNMF.run cw ch ce n s).2) := by
  induction n generalizing s with
  | zero => rfl
  | succ m ih =>
    show ((ABNMF.run cw ch ce m (ABNMF.iterStep cw ch { s with h_augments := ha })).1,
        (if ce then [ABNMF.frobSq (ABNMF.iterStep cw ch { s with h_augments := ha })] else [])
          ++ (ABNMF.run cw ch ce m (ABNMF.iterStep cw ch { s with h_augments := ha })).2)
      = _
    rw [iterStep_set_ha, ih]
    rfl

/-- C8: the `h_augments` argument is stored but never applied — replacing
it changes nothing about construction success, either update step, or any
`factorize` outcome apart from the stored field itself. -/
theorem c8_h_augments_inert (s : ABNMF D N K A)
    (ha ha1 ha2 : Option (List (List ℚ))) (niter : ℕ) (cw ch ce : Bool)
    (Dv Nv Kv r c : ℕ) (data : Matrix (Fin Dv) (Fin Nv) ℚ)
    (w_aug : Matrix (Fin r) (Fin c) ℚ) (W0 : Matrix (Fin Dv) (Fin Kv) ℚ)
    (H0 : Matrix (Fin Kv) (Fin Nv) ℚ) :
    (ABNMF.init Dv Nv Kv r c data w_aug ha1 W0 H0).isSome
      = (ABNMF.init Dv Nv Kv r c data w_aug ha2 W0 H0).isSome ∧
    ABNMF.update_h { s with h_augments := ha }
      = { s.update_h with h_augments := ha } ∧
    ABNMF.update_w { s with h_augments := ha }
      = { s.update_w with h_augments := ha } ∧
    (ABNMF.factorize { s with h_augments := ha } niter cw ch ce).map
        (fun p => (p.1.W, p.1.H, p.1.lamb_W, p.1.lamb_H, p.2))
      = (ABNMF.factorize s niter cw ch ce).map
        (fun p => (p.1.W, p.1.H, p.1.lamb_W, p.1.lamb_H, p.2)) := by
  refine ⟨?_, rfl, rfl, ?_⟩
  · unfold ABNMF.init
    split <;> rfl
  · cases niter with
    | zero => rfl
    | succ m =>
      simp only [ABNMF.factorize, Nat.succ_ne_zero, if_false, Except.map,
        initLamb_set_ha, run_set_ha]
